import Mathlib

/-!
Shallow embedding of `swifttool/client.py` (the swift ring-building tool):
the topology data model (`SwiftRingsDefinition`), the remote disk-metadata
resolution path (`_parse_lshw_output`, `_fab_get_disk_size_serial`,
`get_disk_size_serial` with its module-level per-host cache), the command
generator (`generate_commands`) and the script emitter (`generate_script`).

Python effects are made explicit:
* exceptions are `Except String` values carrying the Python error class;
* the module-global `_host_lshw_output` dict and the remote `sudo` calls are
  threaded as a `RunState` (cache plus a log of the remote fetches executed);
* the remote host inventory (`lshw -C disk` per host) is an oracle
  `Lshw : String → Except String String`;
* the filesystem touched by `generate_script` is a `FileSys` value.

The regular expressions of the source are ported as character-list functions
with the exact semantics (greediness, backtracking, `.` excluding newline,
`$` also matching before a single trailing newline) of Python `re` on the
patterns in question; each port documents its pattern.
-/

set_option maxRecDepth 100000

deriving instance DecidableEq for Except

namespace Swifttool

/-- Python regex class `\s` (ASCII): space, tab, newline, carriage return,
vertical tab, form feed. -/
def pyIsSpace (c : Char) : Bool :=
  c = ' ' || c = '\t' || c = '\n' || c = '\x0d' || c = '\x0b' || c = '\x0c'

/-- Python regex class `\w` (ASCII, as in the py2 source): letters, digits,
underscore. -/
def pyIsWord (c : Char) : Bool :=
  c.isAlphanum || c = '_'

/-- Decimal value of a digit run (Python `int` on a digit group). -/
def digitsToNat (ds : List Char) : Nat :=
  ds.foldl (fun n c => n * 10 + (c.toNat - '0'.toNat)) 0

/-- Python `str.strip()`: drop leading and trailing whitespace. -/
def pyStrip (s : String) : String :=
  ((s.data.dropWhile pyIsSpace).reverse.dropWhile pyIsSpace).reverse.asString

/-- Helper for `splitWsStar`: accumulates the current piece in reverse. -/
def splitStarAux : List Char → List Char → List (List Char)
  | acc, [] => [acc.reverse]
  | acc, '*' :: rest => (acc.dropWhile pyIsSpace).reverse :: splitStarAux [] rest
  | acc, c :: rest => splitStarAux (c :: acc) rest

/-- Port of `re.split('\s*\*', s)`: split at every `*` together with the run
of whitespace immediately preceding it (`\s` cannot match `*`, so each `*`
is one separator occurrence). Empty pieces are kept, as `re.split` does. -/
def splitWsStar (s : String) : List String :=
  (splitStarAux [] s.data).map List.asString

/-- Helper for `splitNl`. -/
def splitLinesAux : List Char → List Char → List (List Char)
  | acc, [] => [acc.reverse]
  | acc, '\n' :: rest => acc.reverse :: splitLinesAux [] rest
  | acc, c :: rest => splitLinesAux (c :: acc) rest

/-- Python `s.split('\n')`: split on every newline, keeping empty pieces. -/
def splitNl (s : String) : List String :=
  (splitLinesAux [] s.data).map List.asString

/-- Python dict lookup on an association list (first matching key). -/
def assocGet {α : Type} : List (String × α) → String → Option α
  | [], _ => none
  | p :: rest, k => if p.1 = k then some p.2 else assocGet rest k

/-- Python dict assignment on an association list: update the entry in place
if the key is present, else append it. -/
def assocSet {α : Type} : List (String × α) → String → α → List (String × α)
  | [], k, v => [(k, v)]
  | p :: rest, k, v => if p.1 = k then (k, v) :: rest else p :: assocSet rest k v

/-- Port of `re.match('^-(\w+)', line)`: the line starts with `-` followed by
at least one word character; the group is the maximal leading word run. -/
def matchDashWord (line : String) : Option String :=
  match line.data with
  | '-' :: rest =>
    let w := rest.takeWhile pyIsWord
    if w.isEmpty then none else some w.asString
  | _ => none

/-- Port of `re.match('^\s+([\w\s]+):\s+(.*)$', line)`.  Since `\s ⊆ [\w\s]`
and neither class contains `:`, the backtracking match succeeds exactly when
the first character is whitespace, the first character outside `[\w\s]` is a
`:` at a position `p ≥ 2`, and at least one whitespace character follows it.
Group 1 runs from `min wsrun (p-1)` (the greedy `^\s+` keeps the maximal
whitespace run, receding by one character only when the key would otherwise
be empty) up to the colon; group 2 is the rest after the maximal whitespace
run following the colon. Lines here never contain a newline, so `(.*)$`
imposes no further constraint. -/
def matchKeyVal (line : String) : Option (String × String) :=
  let cs := line.data
  match cs.head? with
  | none => none
  | some c0 =>
    if pyIsSpace c0 then
      let pre := cs.takeWhile (fun c => pyIsWord c || pyIsSpace c)
      let p := pre.length
      if p < 2 then none
      else
        match cs.drop p with
        | ':' :: rest2 =>
          let wsrun := (cs.takeWhile pyIsSpace).length
          let g1 := pre.drop (min wsrun (p - 1))
          let m := rest2.takeWhile pyIsSpace
          if m.length = 0 then none
          else some (g1.asString, (rest2.drop m.length).asString)
        | _ => none
    else none

/-- Port of `re.sub('\s', '_', key)`. -/
def subWsUnderscore (s : String) : String :=
  (s.data.map (fun c => if pyIsSpace c then '_' else c)).asString

/-- The per-chunk loop of `_parse_lshw_output`: fold the chunk lines into a
dict, recording `class` from a `-word` header line and `key: value` pairs
(with whitespace in the key replaced by `_`) from indented lines. -/
def parseDiskChunk (chunk : String) : List (String × String) :=
  (splitNl chunk).foldl
    (fun dd line =>
      match matchDashWord line with
      | some w => assocSet dd "class" w
      | none =>
        match matchKeyVal line with
        | some kv => assocSet dd (subWsUnderscore kv.1) kv.2
        | none => dd)
    []

/-- Port of `re.match('\s*(\d+)[MG]iB.*', size)`: optional leading
whitespace, a nonempty digit run, then `MiB` or `GiB`; the trailing `.*` is
unconstrained. Returns the digit group as a number. -/
def matchSize (s : String) : Option Nat :=
  let cs := s.data.dropWhile pyIsSpace
  let ds := cs.takeWhile Char.isDigit
  if ds.isEmpty then none
  else
    match cs.drop ds.length with
    | u :: 'i' :: 'B' :: _ => if u = 'M' || u = 'G' then some (digitsToNat ds) else none
    | _ => none

/-- The record-scanning loop of `_parse_lshw_output`: for each parsed record,
read `logical_name` (a missing key raises `KeyError`, as `d['logical_name']`
does); on the first record matching `blockdev`, read `serial` then parse
`size`, raising as the source does; if no record matches, fall off the loop
returning `none` (the Python function returns `None`). -/
def findMatchingDisk : List (List (String × String)) → String →
    Except String (Option (Nat × String))
  | [], _ => Except.ok none
  | dd :: rest, blockdev =>
    match assocGet dd "logical_name" with
    | none => Except.error "KeyError: logical_name"
    | some ln =>
      if ln = blockdev then
        match assocGet dd "serial" with
        | none => Except.error "KeyError: serial"
        | some serial =>
          match assocGet dd "size" with
          | none => Except.error "KeyError: size"
          | some sz =>
            match matchSize sz with
            | none => Except.error "Exception: Could not find size of disk"
            | some n => Except.ok (some (n, serial))
      else findMatchingDisk rest blockdev

/-- Port of `_parse_lshw_output(output, blockdev)`: split the stripped output
on `\s*\*`, parse each chunk into a dict, keep the chunks that have a
`class` entry, and scan them for the record whose `logical_name` equals
`blockdev`.  `Except.ok none` is the Python `None` fall-through. -/
def _parse_lshw_output (output blockdev : String) :
    Except String (Option (Nat × String)) :=
  findMatchingDisk
    (((splitWsStar (pyStrip output)).map parseDiskChunk).filter
      (fun dd => (assocGet dd "class").isSome))
    blockdev

/-- The module-global `_host_lshw_output` dict, plus a log of the remote
`sudo('lshw -C disk')` executions actually performed (the observable remote
side effect, in order). -/
structure RunState where
  cache : List (String × String)
  fetchLog : List String
deriving Repr, DecidableEq

/-- Oracle for the remote inventory: what `sudo('lshw -C disk')` returns on a
given host, or the remote-execution failure it raises. -/
def Lshw : Type := String → Except String String

/-- Port of `_fab_get_disk_size_serial(ip, blockdev)`: consult the global
per-host cache; on a miss, execute the remote `lshw` (logging the fetch) and
cache its output; then parse the output for `blockdev`. -/
def _fab_get_disk_size_serial (world : Lshw) (ip blockdev : String)
    (st : RunState) : Except String (Option (Nat × String)) × RunState :=
  match assocGet st.cache ip with
  | some output => (_parse_lshw_output output blockdev, st)
  | none =>
    match world ip with
    | Except.error e =>
      (Except.error e, { st with fetchLog := st.fetchLog ++ [ip] })
    | Except.ok output =>
      (_parse_lshw_output output blockdev,
        { cache := assocSet st.cache ip output,
          fetchLog := st.fetchLog ++ [ip] })

/-- Port of `get_disk_size_serial(ip, blockdev)`: the fabric `execute`
wrapper runs `_fab_get_disk_size_serial` on the single host `ip` and returns
its result. -/
def get_disk_size_serial (world : Lshw) (ip blockdev : String)
    (st : RunState) : Except String (Option (Nat × String)) × RunState :=
  _fab_get_disk_size_serial world ip blockdev st

/-- A scalar taken from the YAML config: either already an int or a string
(what Python `int(...)` receives). -/
inductive ConfigVal where
  | int (n : Int)
  | str (s : String)
deriving Repr, DecidableEq

/-- Python 2 `int(s)` on a string: strip surrounding whitespace, allow one
optional sign, then require a nonempty all-digit run. -/
def pyIntStr (s : String) : Except String Int :=
  let cs := (pyStrip s).data
  match cs with
  | '-' :: ds =>
    if ds ≠ [] ∧ ds.all Char.isDigit then Except.ok (-(digitsToNat ds : Int))
    else Except.error "ValueError: invalid literal for int()"
  | '+' :: ds =>
    if ds ≠ [] ∧ ds.all Char.isDigit then Except.ok (digitsToNat ds : Int)
    else Except.error "ValueError: invalid literal for int()"
  | ds =>
    if ds ≠ [] ∧ ds.all Char.isDigit then Except.ok (digitsToNat ds : Int)
    else Except.error "ValueError: invalid literal for int()"

/-- Python `int(v)` on a config scalar. -/
def pyInt : ConfigVal → Except String Int
  | ConfigVal.int n => Except.ok n
  | ConfigVal.str s => pyIntStr s

/-- The `SwiftRingsDefinition` object after `__init__`: the defaults set in
`__init__`, overridden by `self.__dict__.update(data)`.  `part_power` has no
default; `none` models the attribute being absent (accessing it raises
`AttributeError`).  `zones` maps zone name to a node → disk-list map; the
maps are association lists iterated in their stored order (the dict
iteration order of the source). -/
structure SwiftRingsDefinition where
  ring_builder_cmd : String := "swift-ring-builder"
  ports : List (String × ConfigVal) :=
    [("object", ConfigVal.int 6000), ("container", ConfigVal.int 6001),
     ("account", ConfigVal.int 6002)]
  replicas : ConfigVal := ConfigVal.int 3
  min_part_hours : ConfigVal := ConfigVal.int 1
  part_power : Option ConfigVal := none
  zones : List (String × List (String × List String)) := []
deriving Repr, DecidableEq

/-- `RING_TYPES = ['account', 'container', 'object']`. -/
def RING_TYPES : List String := ["account", "container", "object"]

/-- The fixed head of an add command for a ring type: the part of the format
string `"%s %s/%s.builder add %s-%s:%d/%s_%s %d"` before the device data. -/
def addCmdHead (d : SwiftRingsDefinition) (outdir ringtype : String) : String :=
  d.ring_builder_cmd ++ " " ++ outdir ++ "/" ++ ringtype ++ ".builder add "

/-- Port of `_ring_create_command`: formats
`"%s %s/%s.builder create %d %d %d"`; reading `self.part_power` raises
`AttributeError` when the field was never supplied, and the three `int(...)`
conversions raise `ValueError` on non-numeric values. -/
def _ring_create_command (d : SwiftRingsDefinition) (ringtype outdir : String) :
    Except String String :=
  match d.part_power with
  | none => Except.error "AttributeError: part_power"
  | some ppv =>
    match pyInt ppv with
    | Except.error e => Except.error e
    | Except.ok pp =>
      match pyInt d.replicas with
      | Except.error e => Except.error e
      | Except.ok rep =>
        match pyInt d.min_part_hours with
        | Except.error e => Except.error e
        | Except.ok mph =>
          Except.ok (d.ring_builder_cmd ++ " " ++ outdir ++ "/" ++ ringtype ++
            ".builder create " ++ toString pp ++ " " ++ toString rep ++ " " ++
            toString mph)

/-- Port of `_ring_add_command`: formats
`"%s %s/%s.builder add %s-%s:%d/%s_%s %d"` (grouped here as the fixed head
followed by the device-specific tail); `int(port)` raises `ValueError` on a
non-numeric port value. -/
def _ring_add_command (d : SwiftRingsDefinition)
    (ringtype outdir zone host : String) (port : ConfigVal)
    (disk metadata : String) (weight : Nat) : Except String String :=
  match pyInt port with
  | Except.error e => Except.error e
  | Except.ok p =>
    Except.ok (addCmdHead d outdir ringtype ++
      (zone ++ "-" ++ host ++ ":" ++ toString p ++ "/" ++ disk ++ "_" ++
        metadata ++ " " ++ toString weight))

/-- Port of `_ring_rebalance_command`: `"%s %s/%s.builder rebalance"`. -/
def _ring_rebalance_command (d : SwiftRingsDefinition)
    (ringtype outdir : String) : String :=
  d.ring_builder_cmd ++ " " ++ outdir ++ "/" ++ ringtype ++ ".builder rebalance"

/-- Python truthiness of the `meta` argument (`None` or a string): `not meta`
is true exactly when `meta` is `None` or the empty string. -/
def pyTruthy : Option String → Bool
  | none => false
  | some s => s != ""

/-- Port of `re.match('(.*)\d+$', disk)`.  `.` does not match a newline and
`$` also matches just before a single trailing newline, so the match
succeeds exactly when, after dropping one trailing newline, the string is
nonempty, newline-free, and ends in a digit; the greedy `(.*)` then captures
everything but that final digit (so only the last digit is stripped). -/
def matchTrailingDigits (s : String) : Option String :=
  let cs := s.data
  let u := if cs.getLast? = some '\n' then cs.dropLast else cs
  match u.getLast? with
  | some c =>
    if c.isDigit && !(u.contains '\n') then some u.dropLast.asString else none
  | none => none

/-- The body of the innermost loop of `generate_commands` for one disk:
derive the block device from the disk name (`match.group(1)` on a failed
match raises `AttributeError`), resolve size and serial (unpacking the
`None` returned when no record matches raises `TypeError`), pick the
metadata (`meta` when truthy, else the discovered serial), look up the ring
type's port, and format the add command. -/
def diskStep (world : Lshw) (d : SwiftRingsDefinition)
    (ringtype outdir zone node : String) (meta : Option String)
    (disk : String) (st : RunState) : Except String String × RunState :=
  match matchTrailingDigits disk with
  | none => (Except.error "AttributeError: NoneType object has no attribute group", st)
  | some base =>
    match get_disk_size_serial world node ("/dev/" ++ base) st with
    | (Except.error e, st') => (Except.error e, st')
    | (Except.ok none, st') => (Except.error "TypeError: NoneType is not iterable", st')
    | (Except.ok (some ws), st') =>
      let metadata := if pyTruthy meta then meta.getD "" else ws.2
      match assocGet d.ports ringtype with
      | none => (Except.error "KeyError: ports", st')
      | some port =>
        match _ring_add_command d ringtype outdir zone node port disk metadata ws.1 with
        | Except.error e => (Except.error e, st')
        | Except.ok cmd => (Except.ok cmd, st')

/-- `for disk in disks['disks']`: emit one add command per disk, in order,
aborting on the first error (the raised exception propagates and the
partially built command list is discarded, while the global cache state is
kept). -/
def disksLoop (world : Lshw) (d : SwiftRingsDefinition)
    (ringtype outdir zone node : String) (meta : Option String) :
    List String → RunState → Except String (List String) × RunState
  | [], st => (Except.ok [], st)
  | disk :: rest, st =>
    match diskStep world d ringtype outdir zone node meta disk st with
    | (Except.error e, st') => (Except.error e, st')
    | (Except.ok cmd, st') =>
      match disksLoop world d ringtype outdir zone node meta rest st' with
      | (Except.error e, st'') => (Except.error e, st'')
      | (Except.ok cmds, st'') => (Except.ok (cmd :: cmds), st'')

/-- `for node, disks in nodes.iteritems()`. -/
def nodesLoop (world : Lshw) (d : SwiftRingsDefinition)
    (ringtype outdir zone : String) (meta : Option String) :
    List (String × List String) → RunState →
      Except String (List String) × RunState
  | [], st => (Except.ok [], st)
  | nd :: rest, st =>
    match disksLoop world d ringtype outdir zone nd.1 meta nd.2 st with
    | (Except.error e, st') => (Except.error e, st')
    | (Except.ok cmds, st') =>
      match nodesLoop world d ringtype outdir zone meta rest st' with
      | (Except.error e, st'') => (Except.error e, st'')
      | (Except.ok more, st'') => (Except.ok (cmds ++ more), st'')

/-- `for zone, nodes in self.zones.iteritems()`. -/
def zonesLoop (world : Lshw) (d : SwiftRingsDefinition)
    (ringtype outdir : String) (meta : Option String) :
    List (String × List (String × List String)) → RunState →
      Except String (List String) × RunState
  | [], st => (Except.ok [], st)
  | zn :: rest, st =>
    match nodesLoop world d ringtype outdir zn.1 meta zn.2 st with
    | (Except.error e, st') => (Except.error e, st')
    | (Except.ok cmds, st') =>
      match zonesLoop world d ringtype outdir meta rest st' with
      | (Except.error e, st'') => (Except.error e, st'')
      | (Except.ok more, st'') => (Except.ok (cmds ++ more), st'')

/-- One iteration of the outer `for ringtype in RING_TYPES` loop: the create
command (built before any disk is visited), the add commands from the zone
loop, and the rebalance command when `rebalance` is set. -/
def ringTypeStep (world : Lshw) (d : SwiftRingsDefinition) (outdir : String)
    (rebalance : Bool) (meta : Option String) (ringtype : String)
    (st : RunState) : Except String (List String) × RunState :=
  match _ring_create_command d ringtype outdir with
  | Except.error e => (Except.error e, st)
  | Except.ok create =>
    match zonesLoop world d ringtype outdir meta d.zones st with
    | (Except.error e, st') => (Except.error e, st')
    | (Except.ok adds, st') =>
      (Except.ok (create :: adds ++
        (if rebalance then [_ring_rebalance_command d ringtype outdir] else [])),
       st')

/-- The outer loop over `RING_TYPES`, concatenating the per-ring-type
command segments. -/
def ringsLoop (world : Lshw) (d : SwiftRingsDefinition) (outdir : String)
    (rebalance : Bool) (meta : Option String) :
    List String → RunState → Except String (List String) × RunState
  | [], st => (Except.ok [], st)
  | rt :: rest, st =>
    match ringTypeStep world d outdir rebalance meta rt st with
    | (Except.error e, st') => (Except.error e, st')
    | (Except.ok seg, st') =>
      match ringsLoop world d outdir rebalance meta rest st' with
      | (Except.error e, st'') => (Except.error e, st'')
      | (Except.ok segs, st'') => (Except.ok (seg ++ segs), st'')

/-- Port of `SwiftRingsDefinition.generate_commands(outdir, rebalance, meta)`. -/
def generate_commands (world : Lshw) (d : SwiftRingsDefinition)
    (outdir : String) (rebalance : Bool) (meta : Option String)
    (st : RunState) : Except String (List String) × RunState :=
  ringsLoop world d outdir rebalance meta RING_TYPES st

/-- Number of disks of one zone's node map. -/
def nodeDisks (nodes : List (String × List String)) : Nat :=
  (nodes.map (fun nd => nd.2.length)).sum

/-- Total number of disks in the topology. -/
def totalDisks (zones : List (String × List (String × List String))) : Nat :=
  (zones.map (fun zn => nodeDisks zn.2)).sum

/-- The filesystem state `generate_script` touches: the set of existing
directories and the files (path to content and permission mode). -/
structure FileSys where
  dirs : List String
  files : List (String × (String × Nat))
deriving Repr, DecidableEq

/-- `stat.S_IEXEC` (owner execute bit, octal 100). -/
def S_IEXEC : Nat := 64

/-- The write loop of `generate_script`: `f.write("%s\n" % command)` for
each command. -/
def writeLines : List String → String
  | [] => ""
  | c :: rest => c ++ "\n" ++ writeLines rest

/-- Port of `generate_script(outdir, name, rebalance, meta)`: prepend the
shebang entry `"#!/bin/bash\n"` to the generated commands, open
`os.path.join(outdir, name)` for writing (raising `IOError` when the
directory does not exist — the source never creates it; a fresh file gets
mode 644), write each entry followed by a newline, then
`chmod(st_mode | S_IEXEC)`, and return the path. -/
def generate_script (world : Lshw) (d : SwiftRingsDefinition) (fs : FileSys)
    (outdir name : String) (rebalance : Bool) (meta : Option String)
    (st : RunState) : Except String String × FileSys × RunState :=
  match generate_commands world d outdir rebalance meta st with
  | (Except.error e, st') => (Except.error e, fs, st')
  | (Except.ok cmds, st') =>
    let commands := "#!/bin/bash\n" :: cmds
    let outfile := outdir ++ "/" ++ name
    if fs.dirs.contains outdir then
      let oldMode :=
        match assocGet fs.files outfile with
        | some pr => pr.2
        | none => 420
      let written : FileSys :=
        { fs with files := assocSet fs.files outfile (writeLines commands, oldMode) }
      let newFiles := assocSet written.files outfile (writeLines commands, Nat.lor oldMode S_IEXEC)
      let chmodded : FileSys := { written with files := newFiles }
      (Except.ok outfile, chmodded, st')
    else
      (Except.error "IOError: No such file or directory", fs, st')

/-- A host inventory as `lshw -C disk` prints it: one disk record with
logical name `/dev/sdb`, serial `S123`, size `500GiB`. -/
def sampleLshw : String :=
  "*-disk\n    logical name: /dev/sdb\n    serial: S123\n    size: 500GiB"

/-- The same inventory with no serial field in the record. -/
def sampleLshwNoSerial : String :=
  "*-disk\n    logical name: /dev/sdb\n    size: 500GiB"

/-- A world with one reachable host `10.0.0.1` reporting `sampleLshw`. -/
def worldSample : Lshw := fun ip =>
  if ip = "10.0.0.1" then Except.ok sampleLshw
  else Except.error "NetworkError"

/-- A world whose host inventory lacks the serial field. -/
def worldNoSerial : Lshw := fun ip =>
  if ip = "10.0.0.1" then Except.ok sampleLshwNoSerial
  else Except.error "NetworkError"

/-- A one-zone, one-node, one-disk topology with `part_power` 10. -/
def dSample : SwiftRingsDefinition :=
  { part_power := some (ConfigVal.int 10),
    zones := [("z1", [("10.0.0.1", ["sdb1"])])] }

/-- A topology with `part_power` 10 and no zones (no remote resolution). -/
def dNoDisks : SwiftRingsDefinition :=
  { part_power := some (ConfigVal.int 10), zones := [] }

/-- The sample topology with the `part_power` key absent from the config. -/
def dNoPP : SwiftRingsDefinition :=
  { zones := [("z1", [("10.0.0.1", ["sdb1"])])] }

/-- The sample topology with a non-numeric `part_power` value. -/
def dBadPP : SwiftRingsDefinition :=
  { part_power := some (ConfigVal.str "abc"),
    zones := [("z1", [("10.0.0.1", ["sdb1"])])] }

/-- The empty run state: cold cache, no fetches yet. -/
def st0 : RunState := { cache := [], fetchLog := [] }

/-- The run state after one fetch of `10.0.0.1` returning `sampleLshw`. -/
def st1 : RunState :=
  { cache := [("10.0.0.1", sampleLshw)], fetchLog := ["10.0.0.1"] }

/-- An empty filesystem: no directories, no files. -/
def fs0 : FileSys := { dirs := [], files := [] }

/-- A filesystem in which the output directory `/etc/swift` exists. -/
def fsDir : FileSys := { dirs := ["/etc/swift"], files := [] }

/-- Cache entries are never removed: every cached inventory survives. -/
def cacheMono (st st' : RunState) : Prop :=
  ∀ p, p ∈ st.cache → p ∈ st'.cache

/-- Well-formed run state: no host was fetched twice, and every fetch that
happened is backed by a cache entry. -/
def CacheInv (st : RunState) : Prop :=
  st.fetchLog.Nodup ∧ ∀ ip, ip ∈ st.fetchLog → (assocGet st.cache ip).isSome = true

/-- Postcondition of one effectful step: the cache only grew, the fetch log
stays duplicate-free, and on a non-error result the state is well formed
again. -/
def StepPost {α : Type} (st : RunState) (out : Except String α × RunState) : Prop :=
  cacheMono st out.2 ∧ out.2.fetchLog.Nodup ∧
    (∀ r, out.1 = Except.ok r → CacheInv out.2)

theorem sumMapConstNat {α : Type} (l : List α) (f : α → Nat) (c : Nat)
    (h : ∀ x ∈ l, f x = c) : (l.map f).sum = l.length * c := by
  induction l with
  | nil => simp
  | cons a t ih =>
    simp only [List.map_cons, List.sum_cons, List.length_cons]
    rw [h a (List.mem_cons_self a t), ih (fun x hx => h x (List.mem_cons_of_mem a hx))]
    ring

theorem disksLoop_length (world : Lshw) (d : SwiftRingsDefinition)
    (ringtype outdir zone node : String) (meta : Option String) :
    ∀ (disks : List String) (st : RunState) (cmds : List String) (st' : RunState),
      disksLoop world d ringtype outdir zone node meta disks st =
        (Except.ok cmds, st') →
      cmds.length = disks.length := by
  intro disks
  induction disks with
  | nil =>
    intro st cmds st' h
    simp only [disksLoop, Prod.mk.injEq, Except.ok.injEq] at h
    rw [← h.1]
  | cons a rest ih =>
    intro st cmds st' h
    cases hstep : diskStep world d ringtype outdir zone node meta a st with
    | mk r stA =>
      cases r with
      | error e => simp [disksLoop, hstep] at h
      | ok cmd =>
        cases hrec : disksLoop world d ringtype outdir zone node meta rest stA with
        | mk r2 stB =>
          cases r2 with
          | error e => simp [disksLoop, hstep, hrec] at h
          | ok cmds2 =>
            simp only [disksLoop, hstep, hrec, Prod.mk.injEq,
              Except.ok.injEq] at h
            rw [← h.1]
            simp [ih stA cmds2 stB hrec]

theorem nodesLoop_length (world : Lshw) (d : SwiftRingsDefinition)
    (ringtype outdir zone : String) (meta : Option String) :
    ∀ (nodes : List (String × List String)) (st : RunState)
      (cmds : List String) (st' : RunState),
      nodesLoop world d ringtype outdir zone meta nodes st =
        (Except.ok cmds, st') →
      cmds.length = nodeDisks nodes := by
  intro nodes
  induction nodes with
  | nil =>
    intro st cmds st' h
    simp only [nodesLoop, Prod.mk.injEq, Except.ok.injEq] at h
    rw [← h.1]
    rfl
  | cons nd rest ih =>
    intro st cmds st' h
    cases hstep : disksLoop world d ringtype outdir zone nd.1 meta nd.2 st with
    | mk r stA =>
      cases r with
      | error e => simp [nodesLoop, hstep] at h
      | ok cmds1 =>
        cases hrec : nodesLoop world d ringtype outdir zone meta rest stA with
        | mk r2 stB =>
          cases r2 with
          | error e => simp [nodesLoop, hstep, hrec] at h
          | ok cmds2 =>
            simp only [nodesLoop, hstep, hrec, Prod.mk.injEq,
              Except.ok.injEq] at h
            rw [← h.1]
            simp [nodeDisks,
              disksLoop_length world d ringtype outdir zone nd.1 meta nd.2 st
                cmds1 stA hstep,
              ih stA cmds2 stB hrec]

theorem zonesLoop_length (world : Lshw) (d : SwiftRingsDefinition)
    (ringtype outdir : String) (meta : Option String) :
    ∀ (zones : List (String × List (String × List String))) (st : RunState)
      (cmds : List String) (st' : RunState),
      zonesLoop world d ringtype outdir meta zones st = (Except.ok cmds, st') →
      cmds.length = totalDisks zones := by
  intro zones
  induction zones with
  | nil =>
    intro st cmds st' h
    simp only [zonesLoop, Prod.mk.injEq, Except.ok.injEq] at h
    rw [← h.1]
    rfl
  | cons zn rest ih =>
    intro st cmds st' h
    cases hstep : nodesLoop world d ringtype outdir zn.1 meta zn.2 st with
    | mk r stA =>
      cases r with
      | error e => simp [zonesLoop, hstep] at h
      | ok cmds1 =>
        cases hrec : zonesLoop world d ringtype outdir meta rest stA with
        | mk r2 stB =>
          cases r2 with
          | error e => simp [zonesLoop, hstep, hrec] at h
          | ok cmds2 =>
            simp only [zonesLoop, hstep, hrec, Prod.mk.injEq,
              Except.ok.injEq] at h
            rw [← h.1]
            simp [totalDisks,
              nodesLoop_length world d ringtype outdir zn.1 meta zn.2 st
                cmds1 stA hstep,
              ih stA cmds2 stB hrec]

theorem ringTypeStep_length (world : Lshw) (d : SwiftRingsDefinition)
    (outdir : String) (rb : Bool) (meta : Option String) (rt : String)
    (st : RunState) (seg : List String) (st' : RunState)
    (h : ringTypeStep world d outdir rb meta rt st = (Except.ok seg, st')) :
    seg.length = 1 + totalDisks d.zones + (if rb then 1 else 0) := by
  unfold ringTypeStep at h
  cases hc : _ring_create_command d rt outdir with
  | error e => rw [hc] at h; simp at h
  | ok c =>
    rw [hc] at h
    cases hz : zonesLoop world d rt outdir meta d.zones st with
    | mk r2 stB =>
      rw [hz] at h
      cases r2 with
      | error e => simp at h
      | ok adds =>
        simp only [Prod.mk.injEq, Except.ok.injEq] at h
        rw [← h.1]
        have hadds := zonesLoop_length world d rt outdir meta d.zones st adds stB hz
        cases rb <;> simp [hadds] <;> omega

theorem ringsLoop_length (world : Lshw) (d : SwiftRingsDefinition)
    (outdir : String) (rb : Bool) (meta : Option String) :
    ∀ (rts : List String) (st : RunState) (cmds : List String) (st' : RunState),
      ringsLoop world d outdir rb meta rts st = (Except.ok cmds, st') →
      cmds.length = rts.length * (1 + totalDisks d.zones + (if rb then 1 else 0)) := by
  intro rts
  induction rts with
  | nil =>
    intro st cmds st' h
    simp only [ringsLoop, Prod.mk.injEq, Except.ok.injEq] at h
    rw [← h.1]
    simp
  | cons rt rest ih =>
    intro st cmds st' h
    cases hstep : ringTypeStep world d outdir rb meta rt st with
    | mk r stA =>
      cases r with
      | error e => simp [ringsLoop, hstep] at h
      | ok seg =>
        cases hrec : ringsLoop world d outdir rb meta rest stA with
        | mk r2 stB =>
          cases r2 with
          | error e => simp [ringsLoop, hstep, hrec] at h
          | ok segs =>
            simp only [ringsLoop, hstep, hrec, Prod.mk.injEq,
              Except.ok.injEq] at h
            rw [← h.1]
            rw [List.length_append,
              ringTypeStep_length world d outdir rb meta rt st seg stA hstep,
              ih stA segs stB hrec, List.length_cons, Nat.succ_mul,
              Nat.add_comm]

/-- C1: for a topology with `N` zones, `M` nodes per zone and `D` disks per
node, a successful `generate_commands` run (all derivations and resolutions
succeeded) returns exactly `3 * (1 + N*M*D + 1)` command strings when
`rebalance` is true and `3 * (1 + N*M*D)` when it is false: per ring type
one create, one add per disk, and one rebalance when enabled. -/
theorem C1_command_count (world : Lshw) (d : SwiftRingsDefinition)
    (outdir : String) (rb : Bool) (meta : Option String)
    (st st' : RunState) (cmds : List String) (N M D : Nat)
    (hN : d.zones.length = N)
    (hM : ∀ zn ∈ d.zones, zn.2.length = M)
    (hD : ∀ zn ∈ d.zones, ∀ nd ∈ zn.2, nd.2.length = D)
    (h : generate_commands world d outdir rb meta st = (Except.ok cmds, st')) :
    cmds.length = 3 * (1 + N * M * D + if rb then 1 else 0) := by
  have htot : totalDisks d.zones = N * M * D := by
    unfold totalDisks
    have hz : ∀ zn ∈ d.zones, nodeDisks zn.2 = M * D := by
      intro zn hzn
      unfold nodeDisks
      rw [sumMapConstNat zn.2 _ D (hD zn hzn), hM zn hzn]
    rw [sumMapConstNat d.zones _ (M * D) hz, hN, Nat.mul_assoc]
  have hlen := ringsLoop_length world d outdir rb meta RING_TYPES st cmds st' h
  rw [hlen, htot]
  rfl

/-- C1 witness: the sample one-zone, one-node, one-disk topology with
rebalance enabled yields the nine listed commands, and 9 = 3 * (1 + 1 + 1). -/
theorem C1_command_count_witness :
    ([ "swift-ring-builder /etc/swift/account.builder create 10 3 1",
       "swift-ring-builder /etc/swift/account.builder add z1-10.0.0.1:6002/sdb1_S123 500",
       "swift-ring-builder /etc/swift/account.builder rebalance",
       "swift-ring-builder /etc/swift/container.builder create 10 3 1",
       "swift-ring-builder /etc/swift/container.builder add z1-10.0.0.1:6001/sdb1_S123 500",
       "swift-ring-builder /etc/swift/container.builder rebalance",
       "swift-ring-builder /etc/swift/object.builder create 10 3 1",
       "swift-ring-builder /etc/swift/object.builder add z1-10.0.0.1:6000/sdb1_S123 500",
       "swift-ring-builder /etc/swift/object.builder rebalance" ] :
      List String).length = 3 * (1 + 1 * 1 * 1 + if true then 1 else 0) :=
  C1_command_count worldSample dSample "/etc/swift" true none st0 st1 _ 1 1 1
    (by decide) (by decide) (by decide) (by decide)

theorem ring_add_command_shape (d : SwiftRingsDefinition)
    (ringtype outdir zone host : String) (port : ConfigVal)
    (disk metadata : String) (weight : Nat) (cmd : String)
    (h : _ring_add_command d ringtype outdir zone host port disk metadata
        weight = Except.ok cmd) :
    ∃ tail, cmd = addCmdHead d outdir ringtype ++ tail := by
  unfold _ring_add_command at h
  cases hpi : pyInt port with
  | error e => simp [hpi] at h
  | ok p =>
    simp only [hpi, Except.ok.injEq] at h
    exact ⟨_, h.symm⟩

theorem diskStep_isAdd (world : Lshw) (d : SwiftRingsDefinition)
    (ringtype outdir zone node : String) (meta : Option String)
    (disk : String) (st : RunState) (cmd : String) (st' : RunState)
    (h : diskStep world d ringtype outdir zone node meta disk st =
      (Except.ok cmd, st')) :
    ∃ tail, cmd = addCmdHead d outdir ringtype ++ tail := by
  cases hm : matchTrailingDigits disk with
  | none => simp [diskStep, hm] at h
  | some base =>
    cases hg : get_disk_size_serial world node ("/dev/" ++ base) st with
    | mk r stA =>
      cases r with
      | error e => simp [diskStep, hm, hg] at h
      | ok ores =>
        cases ores with
        | none => simp [diskStep, hm, hg] at h
        | some ws =>
          cases hp : assocGet d.ports ringtype with
          | none => simp [diskStep, hm, hg, hp] at h
          | some port =>
            cases ha : _ring_add_command d ringtype outdir zone node port disk
                (if pyTruthy meta then meta.getD "" else ws.2) ws.1 with
            | error e => simp [diskStep, hm, hg, hp, ha] at h
            | ok c2 =>
              simp only [diskStep, hm, hg, hp, ha, Prod.mk.injEq,
                Except.ok.injEq] at h
              obtain ⟨tail, htail⟩ :=
                ring_add_command_shape d ringtype outdir zone node port disk
                  (if pyTruthy meta then meta.getD "" else ws.2) ws.1 c2 ha
              exact ⟨tail, by rw [← h.1, htail]⟩

theorem disksLoop_isAdd (world : Lshw) (d : SwiftRingsDefinition)
    (ringtype outdir zone node : String) (meta : Option String) :
    ∀ (disks : List String) (st : RunState) (cmds : List String) (st' : RunState),
      disksLoop world d ringtype outdir zone node meta disks st =
        (Except.ok cmds, st') →
      ∀ x ∈ cmds, ∃ tail, x = addCmdHead d outdir ringtype ++ tail := by
  intro disks
  induction disks with
  | nil =>
    intro st cmds st' h
    simp only [disksLoop, Prod.mk.injEq, Except.ok.injEq] at h
    rw [← h.1]
    simp
  | cons a rest ih =>
    intro st cmds st' h
    cases hstep : diskStep world d ringtype outdir zone node meta a st with
    | mk r stA =>
      cases r with
      | error e => simp [disksLoop, hstep] at h
      | ok cmd =>
        cases hrec : disksLoop world d ringtype outdir zone node meta rest stA with
        | mk r2 stB =>
          cases r2 with
          | error e => simp [disksLoop, hstep, hrec] at h
          | ok cmds2 =>
            simp only [disksLoop, hstep, hrec, Prod.mk.injEq,
              Except.ok.injEq] at h
            rw [← h.1]
            intro x hx
            cases List.mem_cons.mp hx with
            | inl hxh =>
              rw [hxh]
              exact diskStep_isAdd world d ringtype outdir zone node meta a st
                cmd stA hstep
            | inr hxt => exact ih stA cmds2 stB hrec x hxt

theorem nodesLoop_isAdd (world : Lshw) (d : SwiftRingsDefinition)
    (ringtype outdir zone : String) (meta : Option String) :
    ∀ (nodes : List (String × List String)) (st : RunState)
      (cmds : List String) (st' : RunState),
      nodesLoop world d ringtype outdir zone meta nodes st =
        (Except.ok cmds, st') →
      ∀ x ∈ cmds, ∃ tail, x = addCmdHead d outdir ringtype ++ tail := by
  intro nodes
  induction nodes with
  | nil =>
    intro st cmds st' h
    simp only [nodesLoop, Prod.mk.injEq, Except.ok.injEq] at h
    rw [← h.1]
    simp
  | cons nd rest ih =>
    intro st cmds st' h
    cases hstep : disksLoop world d ringtype outdir zone nd.1 meta nd.2 st with
    | mk r stA =>
      cases r with
      | error e => simp [nodesLoop, hstep] at h
      | ok cmds1 =>
        cases hrec : nodesLoop world d ringtype outdir zone meta rest stA with
        | mk r2 stB =>
          cases r2 with
          | error e => simp [nodesLoop, hstep, hrec] at h
          | ok cmds2 =>
            simp only [nodesLoop, hstep, hrec, Prod.mk.injEq,
              Except.ok.injEq] at h
            rw [← h.1]
            intro x hx
            cases List.mem_append.mp hx with
            | inl hx1 =>
              exact disksLoop_isAdd world d ringtype outdir zone nd.1 meta nd.2
                st cmds1 stA hstep x hx1
            | inr hx2 => exact ih stA cmds2 stB hrec x hx2

theorem zonesLoop_isAdd (world : Lshw) (d : SwiftRingsDefinition)
    (ringtype outdir : String) (meta : Option String) :
    ∀ (zones : List (String × List (String × List String))) (st : RunState)
      (cmds : List String) (st' : RunState),
      zonesLoop world d ringtype outdir meta zones st = (Except.ok cmds, st') →
      ∀ x ∈ cmds, ∃ tail, x = addCmdHead d outdir ringtype ++ tail := by
  intro zones
  induction zones with
  | nil =>
    intro st cmds st' h
    simp only [zonesLoop, Prod.mk.injEq, Except.ok.injEq] at h
    rw [← h.1]
    simp
  | cons zn rest ih =>
    intro st cmds st' h
    cases hstep : nodesLoop world d ringtype outdir zn.1 meta zn.2 st with
    | mk r stA =>
      cases r with
      | error e => simp [zonesLoop, hstep] at h
      | ok cmds1 =>
        cases hrec : zonesLoop world d ringtype outdir meta rest stA with
        | mk r2 stB =>
          cases r2 with
          | error e => simp [zonesLoop, hstep, hrec] at h
          | ok cmds2 =>
            simp only [zonesLoop, hstep, hrec, Prod.mk.injEq,
              Except.ok.injEq] at h
            rw [← h.1]
            intro x hx
            cases List.mem_append.mp hx with
            | inl hx1 =>
              exact nodesLoop_isAdd world d ringtype outdir zn.1 meta zn.2
                st cmds1 stA hstep x hx1
            | inr hx2 => exact ih stA cmds2 stB hrec x hx2

theorem ringTypeStep_ok (world : Lshw) (d : SwiftRingsDefinition)
    (outdir : String) (rb : Bool) (meta : Option String) (rt : String)
    (st : RunState) (seg : List String) (st' : RunState)
    (h : ringTypeStep world d outdir rb meta rt st = (Except.ok seg, st')) :
    ∃ c adds, _ring_create_command d rt outdir = Except.ok c ∧
      zonesLoop world d rt outdir meta d.zones st = (Except.ok adds, st') ∧
      seg = c :: adds ++
        (if rb then [_ring_rebalance_command d rt outdir] else []) := by
  cases hc : _ring_create_command d rt outdir with
  | error e => simp [ringTypeStep, hc] at h
  | ok c =>
    cases hz : zonesLoop world d rt outdir meta d.zones st with
    | mk r2 stB =>
      cases r2 with
      | error e => simp [ringTypeStep, hc, hz] at h
      | ok adds =>
        simp only [ringTypeStep, hc, hz, Prod.mk.injEq, Except.ok.injEq] at h
        refine ⟨c, adds, rfl, ?_, h.1.symm⟩
        rw [h.2]

/-- C3: a successful `generate_commands` run iterates ring types in the
fixed order account, container, object; within each ring type it emits
exactly one create command first, then the add commands of that ring type
(each starts with that ring type's add-command head), then — when rebalance
is set — exactly one rebalance command for that ring type. -/
theorem C3_ring_type_order (world : Lshw) (d : SwiftRingsDefinition)
    (outdir : String) (rb : Bool) (meta : Option String)
    (st st' : RunState) (cmds : List String)
    (h : generate_commands world d outdir rb meta st = (Except.ok cmds, st')) :
    ∃ cA aA cC aC cO aO,
      _ring_create_command d "account" outdir = Except.ok cA ∧
      _ring_create_command d "container" outdir = Except.ok cC ∧
      _ring_create_command d "object" outdir = Except.ok cO ∧
      (∀ x ∈ aA, ∃ tail, x = addCmdHead d outdir "account" ++ tail) ∧
      (∀ x ∈ aC, ∃ tail, x = addCmdHead d outdir "container" ++ tail) ∧
      (∀ x ∈ aO, ∃ tail, x = addCmdHead d outdir "object" ++ tail) ∧
      cmds =
        (cA :: aA ++
          (if rb then [_ring_rebalance_command d "account" outdir] else [])) ++
        (cC :: aC ++
          (if rb then [_ring_rebalance_command d "container" outdir] else [])) ++
        (cO :: aO ++
          (if rb then [_ring_rebalance_command d "object" outdir] else [])) := by
  unfold generate_commands RING_TYPES at h
  cases h1 : ringTypeStep world d outdir rb meta "account" st with
  | mk r1 stA =>
    cases r1 with
    | error e => simp [ringsLoop, h1] at h
    | ok seg1 =>
      cases h2 : ringTypeStep world d outdir rb meta "container" stA with
      | mk r2 stB =>
        cases r2 with
        | error e => simp [ringsLoop, h1, h2] at h
        | ok seg2 =>
          cases h3 : ringTypeStep world d outdir rb meta "object" stB with
          | mk r3 stC =>
            cases r3 with
            | error e => simp [ringsLoop, h1, h2, h3] at h
            | ok seg3 =>
              simp only [ringsLoop, h1, h2, h3, Prod.mk.injEq,
                Except.ok.injEq] at h
              obtain ⟨hcmds, hstC⟩ := h
              obtain ⟨cA, aA, hcA, hzA, hsegA⟩ :=
                ringTypeStep_ok world d outdir rb meta "account" st seg1 stA h1
              obtain ⟨cC, aC, hcC, hzC, hsegC⟩ :=
                ringTypeStep_ok world d outdir rb meta "container" stA seg2 stB h2
              obtain ⟨cO, aO, hcO, hzO, hsegO⟩ :=
                ringTypeStep_ok world d outdir rb meta "object" stB seg3 stC h3
              refine ⟨cA, aA, cC, aC, cO, aO, hcA, hcC, hcO,
                zonesLoop_isAdd world d "account" outdir meta d.zones st aA
                  stA hzA,
                zonesLoop_isAdd world d "container" outdir meta d.zones stA aC
                  stB hzC,
                zonesLoop_isAdd world d "object" outdir meta d.zones stB aO
                  stC hzO, ?_⟩
              rw [← hcmds, hsegA, hsegC, hsegO]
              simp [List.append_assoc]

/-- C3 witness: the sample run decomposes into the account, container and
object segments in that order. -/
theorem C3_ring_type_order_witness :
    ∃ cA aA cC aC cO aO,
      _ring_create_command dSample "account" "/etc/swift" = Except.ok cA ∧
      _ring_create_command dSample "container" "/etc/swift" = Except.ok cC ∧
      _ring_create_command dSample "object" "/etc/swift" = Except.ok cO ∧
      (∀ x ∈ aA, ∃ tail, x = addCmdHead dSample "/etc/swift" "account" ++ tail) ∧
      (∀ x ∈ aC, ∃ tail, x = addCmdHead dSample "/etc/swift" "container" ++ tail) ∧
      (∀ x ∈ aO, ∃ tail, x = addCmdHead dSample "/etc/swift" "object" ++ tail) ∧
      ([ "swift-ring-builder /etc/swift/account.builder create 10 3 1",
         "swift-ring-builder /etc/swift/account.builder add z1-10.0.0.1:6002/sdb1_S123 500",
         "swift-ring-builder /etc/swift/account.builder rebalance",
         "swift-ring-builder /etc/swift/container.builder create 10 3 1",
         "swift-ring-builder /etc/swift/container.builder add z1-10.0.0.1:6001/sdb1_S123 500",
         "swift-ring-builder /etc/swift/container.builder rebalance",
         "swift-ring-builder /etc/swift/object.builder create 10 3 1",
         "swift-ring-builder /etc/swift/object.builder add z1-10.0.0.1:6000/sdb1_S123 500",
         "swift-ring-builder /etc/swift/object.builder rebalance" ] : List String) =
        (cA :: aA ++
          (if true then [_ring_rebalance_command dSample "account" "/etc/swift"] else [])) ++
        (cC :: aC ++
          (if true then [_ring_rebalance_command dSample "container" "/etc/swift"] else [])) ++
        (cO :: aO ++
          (if true then [_ring_rebalance_command dSample "object" "/etc/swift"] else [])) :=
  C3_ring_type_order worldSample dSample "/etc/swift" true none st0 st1 _
    (by decide)

/-- C6: when `part_power` is missing, or is a string `int(...)` rejects,
`generate_commands` fails while building the very first (account) create
command — with the `AttributeError` of the missing attribute, respectively
the `ValueError` of the conversion — and the returned run state is exactly
the input state: no remote call was made (the fetch log is unchanged). -/
theorem C6_part_power_fails_first (world : Lshw) (d : SwiftRingsDefinition)
    (outdir : String) (rb : Bool) (meta : Option String) (st : RunState) :
    (d.part_power = none →
      generate_commands world d outdir rb meta st =
        (Except.error "AttributeError: part_power", st)) ∧
    (∀ s err, d.part_power = some (ConfigVal.str s) →
      pyIntStr s = Except.error err →
      generate_commands world d outdir rb meta st = (Except.error err, st)) := by
  constructor
  · intro hpp
    have hc : _ring_create_command d "account" outdir =
        Except.error "AttributeError: part_power" := by
      simp [_ring_create_command, hpp]
    unfold generate_commands RING_TYPES
    simp [ringsLoop, ringTypeStep, hc]
  · intro s err hpp herr
    have hc : _ring_create_command d "account" outdir = Except.error err := by
      simp [_ring_create_command, hpp, pyInt, herr]
    unfold generate_commands RING_TYPES
    simp [ringsLoop, ringTypeStep, hc]

/-- C6 witness: the sample topology without `part_power`, and with the
non-numeric `part_power` value `abc`, both abort generation with the input
state untouched. -/
theorem C6_part_power_fails_first_witness :
    generate_commands worldSample dNoPP "/etc/swift" true none st0 =
      (Except.error "AttributeError: part_power", st0) ∧
    generate_commands worldSample dBadPP "/etc/swift" true none st0 =
      (Except.error "ValueError: invalid literal for int()", st0) :=
  ⟨(C6_part_power_fails_first worldSample dNoPP "/etc/swift" true none st0).1
      (by decide),
   (C6_part_power_fails_first worldSample dBadPP "/etc/swift" true none st0).2
      "abc" "ValueError: invalid literal for int()" (by decide) (by decide)⟩

theorem diskStep_emptyMeta (world : Lshw) (d : SwiftRingsDefinition)
    (ringtype outdir zone node disk : String) (st : RunState) :
    diskStep world d ringtype outdir zone node (some "") disk st =
      diskStep world d ringtype outdir zone node none disk st := by
  unfold diskStep
  rfl

theorem disksLoop_emptyMeta (world : Lshw) (d : SwiftRingsDefinition)
    (ringtype outdir zone node : String) :
    ∀ (disks : List String) (st : RunState),
      disksLoop world d ringtype outdir zone node (some "") disks st =
        disksLoop world d ringtype outdir zone node none disks st := by
  intro disks
  induction disks with
  | nil => intro st; rfl
  | cons a rest ih =>
    intro st
    cases hstep : diskStep world d ringtype outdir zone node none a st with
    | mk r stA =>
      have hstep2 : diskStep world d ringtype outdir zone node (some "") a st =
          (r, stA) := by
        rw [diskStep_emptyMeta]; exact hstep
      cases r with
      | error e => simp [disksLoop, hstep, hstep2]
      | ok cmd => simp [disksLoop, hstep, hstep2, ih stA]

theorem nodesLoop_emptyMeta (world : Lshw) (d : SwiftRingsDefinition)
    (ringtype outdir zone : String) :
    ∀ (nodes : List (String × List String)) (st : RunState),
      nodesLoop world d ringtype outdir zone (some "") nodes st =
        nodesLoop world d ringtype outdir zone none nodes st := by
  intro nodes
  induction nodes with
  | nil => intro st; rfl
  | cons nd rest ih =>
    intro st
    cases hstep : disksLoop world d ringtype outdir zone nd.1 none nd.2 st with
    | mk r stA =>
      have hstep2 : disksLoop world d ringtype outdir zone nd.1 (some "") nd.2 st =
          (r, stA) := by
        rw [disksLoop_emptyMeta]; exact hstep
      cases r with
      | error e => simp [nodesLoop, hstep, hstep2]
      | ok cmds1 => simp [nodesLoop, hstep, hstep2, ih stA]

theorem zonesLoop_emptyMeta (world : Lshw) (d : SwiftRingsDefinition)
    (ringtype outdir : String) :
    ∀ (zones : List (String × List (String × List String))) (st : RunState),
      zonesLoop world d ringtype outdir (some "") zones st =
        zonesLoop world d ringtype outdir none zones st := by
  intro zones
  induction zones with
  | nil => intro st; rfl
  | cons zn rest ih =>
    intro st
    cases hstep : nodesLoop world d ringtype outdir zn.1 none zn.2 st with
    | mk r stA =>
      have hstep2 : nodesLoop world d ringtype outdir zn.1 (some "") zn.2 st =
          (r, stA) := by
        rw [nodesLoop_emptyMeta]; exact hstep
      cases r with
      | error e => simp [zonesLoop, hstep, hstep2]
      | ok cmds1 => simp [zonesLoop, hstep, hstep2, ih stA]

theorem ringsLoop_emptyMeta (world : Lshw) (d : SwiftRingsDefinition)
    (outdir : String) (rb : Bool) :
    ∀ (rts : List String) (st : RunState),
      ringsLoop world d outdir rb (some "") rts st =
        ringsLoop world d outdir rb none rts st := by
  intro rts
  induction rts with
  | nil => intro st; rfl
  | cons rt rest ih =>
    intro st
    have hzs : ∀ stx, ringTypeStep world d outdir rb (some "") rt stx =
        ringTypeStep world d outdir rb none rt stx := by
      intro stx
      unfold ringTypeStep
      rw [zonesLoop_emptyMeta]
    cases hstep : ringTypeStep world d outdir rb none rt st with
    | mk r stA =>
      have hstep2 : ringTypeStep world d outdir rb (some "") rt st = (r, stA) := by
        rw [hzs]; exact hstep
      cases r with
      | error e => simp [ringsLoop, hstep, hstep2]
      | ok seg => simp [ringsLoop, hstep, hstep2, ih stA]

/-- C9: an empty-string metadata override is falsy in Python, so it is
ignored: generation with override `""` is identical to generation with no
override at all, and on a successful resolution the emitted add command is
exactly the one carrying the discovered serial as its identifier. The
override takes effect only when it is a non-empty (truthy) string. -/
theorem C9_empty_override (world : Lshw) (d : SwiftRingsDefinition)
    (outdir : String) (rb : Bool) (st : RunState) :
    generate_commands world d outdir rb (some "") st =
      generate_commands world d outdir rb none st ∧
    (∀ rt zone node disk st₁ base w s st₂ port cmd,
      matchTrailingDigits disk = some base →
      get_disk_size_serial world node ("/dev/" ++ base) st₁ =
        (Except.ok (some (w, s)), st₂) →
      assocGet d.ports rt = some port →
      _ring_add_command d rt outdir zone node port disk s w = Except.ok cmd →
      diskStep world d rt outdir zone node (some "") disk st₁ =
        (Except.ok cmd, st₂)) := by
  constructor
  · unfold generate_commands
    exact ringsLoop_emptyMeta world d outdir rb RING_TYPES st
  · intro rt zone node disk st₁ base w s st₂ port cmd hbase hres hport hadd
    simp [diskStep, hbase, hres, hport, pyTruthy, hadd]

/-- C9 witness: on the sample topology the empty override reproduces the
no-override run, and the object add command for disk `sdb1` carries the
discovered serial `S123`. -/
theorem C9_empty_override_witness :
    generate_commands worldSample dSample "/etc/swift" true (some "") st0 =
      generate_commands worldSample dSample "/etc/swift" true none st0 ∧
    diskStep worldSample dSample "object" "/etc/swift" "z1" "10.0.0.1"
        (some "") "sdb1" st0 =
      (Except.ok
        "swift-ring-builder /etc/swift/object.builder add z1-10.0.0.1:6000/sdb1_S123 500",
       st1) :=
  ⟨(C9_empty_override worldSample dSample "/etc/swift" true st0).1,
   (C9_empty_override worldSample dSample "/etc/swift" true st0).2
     "object" "z1" "10.0.0.1" "sdb1" st0 "sdb" 500 "S123" st1
     (ConfigVal.int 6000)
     "swift-ring-builder /etc/swift/object.builder add z1-10.0.0.1:6000/sdb1_S123 500"
     (by decide) (by decide) (by decide) (by decide)⟩

/-- C4 (amended): identifier discovery is still performed — the inventory
lookup returns size and serial together — but with a truthy (non-empty)
override `m`, every successfully emitted add command is exactly the one
carrying `m` as its identifier, while its weight is the discovered device
capacity. -/
theorem C4_override_replaces_serial (world : Lshw) (d : SwiftRingsDefinition)
    (rt outdir zone node m disk : String) (st : RunState) (cmd : String)
    (st₂ : RunState) (hm : m ≠ "")
    (h : diskStep world d rt outdir zone node (some m) disk st =
      (Except.ok cmd, st₂)) :
    ∃ base w s port,
      matchTrailingDigits disk = some base ∧
      get_disk_size_serial world node ("/dev/" ++ base) st =
        (Except.ok (some (w, s)), st₂) ∧
      assocGet d.ports rt = some port ∧
      _ring_add_command d rt outdir zone node port disk m w = Except.ok cmd := by
  cases hb : matchTrailingDigits disk with
  | none => simp [diskStep, hb] at h
  | some base =>
    cases hg : get_disk_size_serial world node ("/dev/" ++ base) st with
    | mk r stA =>
      cases r with
      | error e => simp [diskStep, hb, hg] at h
      | ok ores =>
        cases ores with
        | none => simp [diskStep, hb, hg] at h
        | some ws =>
          obtain ⟨w, s⟩ := ws
          have htr : pyTruthy (some m) = true := by
            simp [pyTruthy, bne_iff_ne, hm]
          cases hp : assocGet d.ports rt with
          | none => simp [diskStep, hb, hg, hp] at h
          | some port =>
            cases ha : _ring_add_command d rt outdir zone node port disk m w with
            | error e => simp [diskStep, hb, hg, hp, htr, ha] at h
            | ok c2 =>
              simp only [diskStep, hb, hg, hp, htr, if_true, Option.getD_some,
                ha, Prod.mk.injEq, Except.ok.injEq] at h
              refine ⟨base, w, s, port, rfl, ?_, rfl, ?_⟩
              · rw [hg, h.2]
              · rw [ha, h.1]

/-- C4 witness: with override `OVR`, the object add command for disk `sdb1`
carries `OVR` as its identifier and the discovered weight 500, obtained from
a resolution that also discovered serial `S123`. -/
theorem C4_override_replaces_serial_witness :
    ∃ base w s port,
      matchTrailingDigits "sdb1" = some base ∧
      get_disk_size_serial worldSample "10.0.0.1" ("/dev/" ++ base) st0 =
        (Except.ok (some (w, s)), st1) ∧
      assocGet dSample.ports "object" = some port ∧
      _ring_add_command dSample "object" "/etc/swift" "z1" "10.0.0.1" port
        "sdb1" "OVR" w =
        Except.ok
          "swift-ring-builder /etc/swift/object.builder add z1-10.0.0.1:6000/sdb1_OVR 500" :=
  C4_override_replaces_serial worldSample dSample "object" "/etc/swift" "z1"
    "10.0.0.1" "OVR" "sdb1" st0
    "swift-ring-builder /etc/swift/object.builder add z1-10.0.0.1:6000/sdb1_OVR 500"
    st1 (by decide) (by decide)

/-- C5 (amended): when the fetched inventory contains no record whose
logical name equals the derived block device, `_parse_lshw_output` returns
`None` rather than raising `DiskNotFound`; the failure surfaces only at the
caller, where unpacking the `None` into `weight, serial` raises a
`TypeError`, aborting generation at that disk. -/
theorem C5_none_unpack (world : Lshw) (d : SwiftRingsDefinition)
    (rt outdir zone node disk base : String) (meta : Option String)
    (st st₂ : RunState)
    (hbase : matchTrailingDigits disk = some base)
    (hres : get_disk_size_serial world node ("/dev/" ++ base) st =
      (Except.ok none, st₂)) :
    diskStep world d rt outdir zone node meta disk st =
      (Except.error "TypeError: NoneType is not iterable", st₂) := by
  simp [diskStep, hbase, hres]

/-- C5 witness: disk `sdz1` derives `/dev/sdz`, which the sample inventory
does not list; the parser returns `None` and the disk step aborts with the
unpacking `TypeError`. -/
theorem C5_none_unpack_witness :
    diskStep worldSample dSample "object" "/etc/swift" "z1" "10.0.0.1" none
      "sdz1" st0 = (Except.error "TypeError: NoneType is not iterable", st1) :=
  C5_none_unpack worldSample dSample "object" "/etc/swift" "z1" "10.0.0.1"
    "sdz1" "sdz" none st0 st1 (by decide) (by decide)

/-- C10 (amended): the trailing-digit match succeeds for every disk name
that contains no newline and ends in a digit; and whenever the match fails
(no trailing digit, or a stray newline), the disk step aborts with the
uncaught `AttributeError` raised by `match.group(1)` on `None`, before any
command for that disk is emitted and without touching the run state (no
remote call for that disk). -/
theorem C10_derivation_domain :
    (∀ (disk : String) (c : Char), disk.data.getLast? = some c →
      c.isDigit = true → disk.data.contains '\n' = false →
      (matchTrailingDigits disk).isSome = true) ∧
    (∀ (world : Lshw) (d : SwiftRingsDefinition)
      (rt outdir zone node : String) (meta : Option String)
      (disk : String) (st : RunState),
      matchTrailingDigits disk = none →
      diskStep world d rt outdir zone node meta disk st =
        (Except.error "AttributeError: NoneType object has no attribute group",
         st)) := by
  constructor
  · intro disk c hlast hdig hnl
    have hne : ¬ c = '\n' := by
      intro hc
      rw [hc] at hdig
      exact absurd hdig (by decide)
    simp at hnl
    simp [matchTrailingDigits, hlast, hne, hdig, hnl]
  · intro world d rt outdir zone node meta disk st hmatch
    simp [diskStep, hmatch]

/-- C10 witness: `sdb1` (newline-free, digit-final) is derivable, while for
`abc` (no trailing digit) the disk step aborts with the `AttributeError`
leaving the state untouched. -/
theorem C10_derivation_domain_witness :
    (matchTrailingDigits "sdb1").isSome = true ∧
    diskStep worldSample dSample "object" "/etc/swift" "z1" "10.0.0.1" none
      "abc" st0 =
      (Except.error "AttributeError: NoneType object has no attribute group",
       st0) :=
  ⟨C10_derivation_domain.1 "sdb1" '1' (by decide) (by decide) (by decide),
   C10_derivation_domain.2 worldSample dSample "object" "/etc/swift" "z1"
     "10.0.0.1" none "abc" st0 (by decide)⟩

theorem cacheMono_refl (st : RunState) : cacheMono st st :=
  fun _ hp => hp

theorem cacheMono_trans {a b c : RunState} (h1 : cacheMono a b)
    (h2 : cacheMono b c) : cacheMono a c :=
  fun p hp => h2 p (h1 p hp)

theorem assocSet_of_get_none {α : Type} :
    ∀ (l : List (String × α)) (k : String) (v : α),
      assocGet l k = none → assocSet l k v = l ++ [(k, v)] := by
  intro l
  induction l with
  | nil => intro k v _; rfl
  | cons p rest ih =>
    intro k v h
    by_cases hpk : p.1 = k
    · simp [assocGet, hpk] at h
    · simp only [assocGet, hpk, if_neg, ite_false] at h
      simp [assocSet, hpk, ih k v h]

theorem assocGet_assocSet {α : Type} :
    ∀ (l : List (String × α)) (k : String) (v : α) (k' : String),
      assocGet (assocSet l k v) k' =
        if k = k' then some v else assocGet l k' := by
  intro l
  induction l with
  | nil =>
    intro k v k'
    simp [assocSet, assocGet]
  | cons p rest ih =>
    intro k v k'
    by_cases hpk : p.1 = k
    · by_cases hkk : k = k'
      · simp [assocSet, assocGet, hpk, hkk]
      · have hpk' : ¬ p.1 = k' := by rw [hpk]; exact hkk
        simp [assocSet, assocGet, hpk, hkk, hpk']
    · by_cases hpk' : p.1 = k'
      · have hkk : ¬ k = k' := fun hc => hpk (by rw [hc, ← hpk'])
        have hkk2 : ¬ k' = k := fun hc => hkk hc.symm
        simp [assocSet, assocGet, hpk, hpk', hkk, hkk2]
      · simp [assocSet, assocGet, hpk, hpk', ih k v k']

theorem fabGet_stepPost (world : Lshw) (ip bd : String) (st : RunState)
    (hInv : CacheInv st) :
    StepPost st (_fab_get_disk_size_serial world ip bd st) := by
  cases hc : assocGet st.cache ip with
  | some out =>
    have hds : _fab_get_disk_size_serial world ip bd st =
        (_parse_lshw_output out bd, st) := by
      simp [_fab_get_disk_size_serial, hc]
    rw [hds]
    exact ⟨cacheMono_refl st, hInv.1, fun _ _ => hInv⟩
  | none =>
    have hnotin : ip ∉ st.fetchLog := by
      intro hmem
      have hsome := hInv.2 ip hmem
      rw [hc] at hsome
      simp at hsome
    have hnodup : (st.fetchLog ++ [ip]).Nodup := by
      simp [List.nodup_append, hInv.1, hnotin]
    cases hw : world ip with
    | error e =>
      have hds : _fab_get_disk_size_serial world ip bd st =
          (Except.error e, { st with fetchLog := st.fetchLog ++ [ip] }) := by
        simp [_fab_get_disk_size_serial, hc, hw]
      rw [hds]
      exact ⟨fun p hp => hp, hnodup, fun r hr => absurd hr (by simp)⟩
    | ok out =>
      have hset : assocSet st.cache ip out = st.cache ++ [(ip, out)] :=
        assocSet_of_get_none st.cache ip out hc
      have hds : _fab_get_disk_size_serial world ip bd st =
          (_parse_lshw_output out bd,
           { cache := assocSet st.cache ip out,
             fetchLog := st.fetchLog ++ [ip] }) := by
        simp [_fab_get_disk_size_serial, hc, hw]
      rw [hds]
      refine ⟨?_, hnodup, ?_⟩
      · intro p hp
        rw [hset]
        exact List.mem_append_left _ hp
      · intro r _
        refine ⟨hnodup, ?_⟩
        intro h hmem
        cases List.mem_append.mp hmem with
        | inl hold =>
          have hsome := hInv.2 h hold
          rw [assocGet_assocSet]
          by_cases hih : ip = h
          · simp [hih]
          · simp [hih]
            exact hsome
        | inr hnew =>
          have : h = ip := by simpa using hnew
          rw [this, assocGet_assocSet]
          simp

theorem diskStep_stepPost (world : Lshw) (d : SwiftRingsDefinition)
    (rt outdir zone node : String) (meta : Option String) (disk : String)
    (st : RunState) (hInv : CacheInv st) :
    StepPost st (diskStep world d rt outdir zone node meta disk st) := by
  cases hm : matchTrailingDigits disk with
  | none =>
    have hds : diskStep world d rt outdir zone node meta disk st =
        (Except.error "AttributeError: NoneType object has no attribute group",
         st) := by
      simp [diskStep, hm]
    rw [hds]
    exact ⟨cacheMono_refl st, hInv.1, fun _ _ => hInv⟩
  | some base =>
    cases hg : get_disk_size_serial world node ("/dev/" ++ base) st with
    | mk r stA =>
      have hg2 : _fab_get_disk_size_serial world node ("/dev/" ++ base) st =
          (r, stA) := hg
      have hfab : StepPost st (r, stA) := by
        rw [← hg2]
        exact fabGet_stepPost world node ("/dev/" ++ base) st hInv
      cases r with
      | error e =>
        have hds : diskStep world d rt outdir zone node meta disk st =
            (Except.error e, stA) := by
          simp [diskStep, hm, hg]
        rw [hds]
        exact ⟨hfab.1, hfab.2.1, fun r2 hr2 => absurd hr2 (by simp)⟩
      | ok ores =>
        have hInvA : CacheInv stA := hfab.2.2 ores rfl
        cases ores with
        | none =>
          have hds : diskStep world d rt outdir zone node meta disk st =
              (Except.error "TypeError: NoneType is not iterable", stA) := by
            simp [diskStep, hm, hg]
          rw [hds]
          exact ⟨hfab.1, hfab.2.1, fun _ _ => hInvA⟩
        | some ws =>
          cases hp : assocGet d.ports rt with
          | none =>
            have hds : diskStep world d rt outdir zone node meta disk st =
                (Except.error "KeyError: ports", stA) := by
              simp [diskStep, hm, hg, hp]
            rw [hds]
            exact ⟨hfab.1, hfab.2.1, fun _ _ => hInvA⟩
          | some port =>
            cases ha : _ring_add_command d rt outdir zone node port disk
                (if pyTruthy meta then meta.getD "" else ws.2) ws.1 with
            | error e =>
              have hds : diskStep world d rt outdir zone node meta disk st =
                  (Except.error e, stA) := by
                simp [diskStep, hm, hg, hp, ha]
              rw [hds]
              exact ⟨hfab.1, hfab.2.1, fun _ _ => hInvA⟩
            | ok cmd =>
              have hds : diskStep world d rt outdir zone node meta disk st =
                  (Except.ok cmd, stA) := by
                simp [diskStep, hm, hg, hp, ha]
              rw [hds]
              exact ⟨hfab.1, hfab.2.1, fun _ _ => hInvA⟩

theorem disksLoop_stepPost (world : Lshw) (d : SwiftRingsDefinition)
    (rt outdir zone node : String) (meta : Option String) :
    ∀ (disks : List String) (st : RunState), CacheInv st →
      StepPost st (disksLoop world d rt outdir zone node meta disks st) := by
  intro disks
  induction disks with
  | nil =>
    intro st hInv
    exact ⟨cacheMono_refl st, hInv.1, fun _ _ => hInv⟩
  | cons a rest ih =>
    intro st hInv
    cases hstep : diskStep world d rt outdir zone node meta a st with
    | mk r stA =>
      have h1 : StepPost st (r, stA) := by
        rw [← hstep]
        exact diskStep_stepPost world d rt outdir zone node meta a st hInv
      cases r with
      | error e =>
        have hds : disksLoop world d rt outdir zone node meta (a :: rest) st =
            (Except.error e, stA) := by
          simp [disksLoop, hstep]
        rw [hds]
        exact ⟨h1.1, h1.2.1, fun r2 hr2 => absurd hr2 (by simp)⟩
      | ok cmd =>
        have hInvA : CacheInv stA := h1.2.2 cmd rfl
        cases hrec : disksLoop world d rt outdir zone node meta rest stA with
        | mk r2 stB =>
          have h2 : StepPost stA (r2, stB) := by
            rw [← hrec]
            exact ih stA hInvA
          cases r2 with
          | error e =>
            have hds : disksLoop world d rt outdir zone node meta (a :: rest) st =
                (Except.error e, stB) := by
              simp [disksLoop, hstep, hrec]
            rw [hds]
            exact ⟨cacheMono_trans h1.1 h2.1, h2.2.1,
              fun r3 hr3 => absurd hr3 (by simp)⟩
          | ok cmds2 =>
            have hds : disksLoop world d rt outdir zone node meta (a :: rest) st =
                (Except.ok (cmd :: cmds2), stB) := by
              simp [disksLoop, hstep, hrec]
            rw [hds]
            exact ⟨cacheMono_trans h1.1 h2.1, h2.2.1,
              fun _ _ => h2.2.2 cmds2 rfl⟩

theorem nodesLoop_stepPost (world : Lshw) (d : SwiftRingsDefinition)
    (rt outdir zone : String) (meta : Option String) :
    ∀ (nodes : List (String × List String)) (st : RunState), CacheInv st →
      StepPost st (nodesLoop world d rt outdir zone meta nodes st) := by
  intro nodes
  induction nodes with
  | nil =>
    intro st hInv
    exact ⟨cacheMono_refl st, hInv.1, fun _ _ => hInv⟩
  | cons nd rest ih =>
    intro st hInv
    cases hstep : disksLoop world d rt outdir zone nd.1 meta nd.2 st with
    | mk r stA =>
      have h1 : StepPost st (r, stA) := by
        rw [← hstep]
        exact disksLoop_stepPost world d rt outdir zone nd.1 meta nd.2 st hInv
      cases r with
      | error e =>
        have hds : nodesLoop world d rt outdir zone meta (nd :: rest) st =
            (Except.error e, stA) := by
          simp [nodesLoop, hstep]
        rw [hds]
        exact ⟨h1.1, h1.2.1, fun r2 hr2 => absurd hr2 (by simp)⟩
      | ok cmds1 =>
        have hInvA : CacheInv stA := h1.2.2 cmds1 rfl
        cases hrec : nodesLoop world d rt outdir zone meta rest stA with
        | mk r2 stB =>
          have h2 : StepPost stA (r2, stB) := by
            rw [← hrec]
            exact ih stA hInvA
          cases r2 with
          | error e =>
            have hds : nodesLoop world d rt outdir zone meta (nd :: rest) st =
                (Except.error e, stB) := by
              simp [nodesLoop, hstep, hrec]
            rw [hds]
            exact ⟨cacheMono_trans h1.1 h2.1, h2.2.1,
              fun r3 hr3 => absurd hr3 (by simp)⟩
          | ok cmds2 =>
            have hds : nodesLoop world d rt outdir zone meta (nd :: rest) st =
                (Except.ok (cmds1 ++ cmds2), stB) := by
              simp [nodesLoop, hstep, hrec]
            rw [hds]
            exact ⟨cacheMono_trans h1.1 h2.1, h2.2.1,
              fun _ _ => h2.2.2 cmds2 rfl⟩

theorem zonesLoop_stepPost (world : Lshw) (d : SwiftRingsDefinition)
    (rt outdir : String) (meta : Option String) :
    ∀ (zones : List (String × List (String × List String))) (st : RunState),
      CacheInv st →
      StepPost st (zonesLoop world d rt outdir meta zones st) := by
  intro zones
  induction zones with
  | nil =>
    intro st hInv
    exact ⟨cacheMono_refl st, hInv.1, fun _ _ => hInv⟩
  | cons zn rest ih =>
    intro st hInv
    cases hstep : nodesLoop world d rt outdir zn.1 meta zn.2 st with
    | mk r stA =>
      have h1 : StepPost st (r, stA) := by
        rw [← hstep]
        exact nodesLoop_stepPost world d rt outdir zn.1 meta zn.2 st hInv
      cases r with
      | error e =>
        have hds : zonesLoop world d rt outdir meta (zn :: rest) st =
            (Except.error e, stA) := by
          simp [zonesLoop, hstep]
        rw [hds]
        exact ⟨h1.1, h1.2.1, fun r2 hr2 => absurd hr2 (by simp)⟩
      | ok cmds1 =>
        have hInvA : CacheInv stA := h1.2.2 cmds1 rfl
        cases hrec : zonesLoop world d rt outdir meta rest stA with
        | mk r2 stB =>
          have h2 : StepPost stA (r2, stB) := by
            rw [← hrec]
            exact ih stA hInvA
          cases r2 with
          | error e =>
            have hds : zonesLoop world d rt outdir meta (zn :: rest) st =
                (Except.error e, stB) := by
              simp [zonesLoop, hstep, hrec]
            rw [hds]
            exact ⟨cacheMono_trans h1.1 h2.1, h2.2.1,
              fun r3 hr3 => absurd hr3 (by simp)⟩
          | ok cmds2 =>
            have hds : zonesLoop world d rt outdir meta (zn :: rest) st =
                (Except.ok (cmds1 ++ cmds2), stB) := by
              simp [zonesLoop, hstep, hrec]
            rw [hds]
            exact ⟨cacheMono_trans h1.1 h2.1, h2.2.1,
              fun _ _ => h2.2.2 cmds2 rfl⟩

theorem ringTypeStep_stepPost (world : Lshw) (d : SwiftRingsDefinition)
    (outdir : String) (rb : Bool) (meta : Option String) (rt : String)
    (st : RunState) (hInv : CacheInv st) :
    StepPost st (ringTypeStep world d outdir rb meta rt st) := by
  cases hc : _ring_create_command d rt outdir with
  | error e =>
    have hds : ringTypeStep world d outdir rb meta rt st =
        (Except.error e, st) := by
      simp [ringTypeStep, hc]
    rw [hds]
    exact ⟨cacheMono_refl st, hInv.1, fun _ _ => hInv⟩
  | ok c =>
    cases hz : zonesLoop world d rt outdir meta d.zones st with
    | mk r stA =>
      have h1 : StepPost st (r, stA) := by
        rw [← hz]
        exact zonesLoop_stepPost world d rt outdir meta d.zones st hInv
      cases r with
      | error e =>
        have hds : ringTypeStep world d outdir rb meta rt st =
            (Except.error e, stA) := by
          simp [ringTypeStep, hc, hz]
        rw [hds]
        exact ⟨h1.1, h1.2.1, fun r2 hr2 => absurd hr2 (by simp)⟩
      | ok adds =>
        have hds : ringTypeStep world d outdir rb meta rt st =
            (Except.ok (c :: adds ++
              (if rb then [_ring_rebalance_command d rt outdir] else [])),
             stA) := by
          simp [ringTypeStep, hc, hz]
        rw [hds]
        exact ⟨h1.1, h1.2.1, fun _ _ => h1.2.2 adds rfl⟩

theorem ringsLoop_stepPost (world : Lshw) (d : SwiftRingsDefinition)
    (outdir : String) (rb : Bool) (meta : Option String) :
    ∀ (rts : List String) (st : RunState), CacheInv st →
      StepPost st (ringsLoop world d outdir rb meta rts st) := by
  intro rts
  induction rts with
  | nil =>
    intro st hInv
    exact ⟨cacheMono_refl st, hInv.1, fun _ _ => hInv⟩
  | cons rt rest ih =>
    intro st hInv
    cases hstep : ringTypeStep world d outdir rb meta rt st with
    | mk r stA =>
      have h1 : StepPost st (r, stA) := by
        rw [← hstep]
        exact ringTypeStep_stepPost world d outdir rb meta rt st hInv
      cases r with
      | error e =>
        have hds : ringsLoop world d outdir rb meta (rt :: rest) st =
            (Except.error e, stA) := by
          simp [ringsLoop, hstep]
        rw [hds]
        exact ⟨h1.1, h1.2.1, fun r2 hr2 => absurd hr2 (by simp)⟩
      | ok seg =>
        have hInvA : CacheInv stA := h1.2.2 seg rfl
        cases hrec : ringsLoop world d outdir rb meta rest stA with
        | mk r2 stB =>
          have h2 : StepPost stA (r2, stB) := by
            rw [← hrec]
            exact ih stA hInvA
          cases r2 with
          | error e =>
            have hds : ringsLoop world d outdir rb meta (rt :: rest) st =
                (Except.error e, stB) := by
              simp [ringsLoop, hstep, hrec]
            rw [hds]
            exact ⟨cacheMono_trans h1.1 h2.1, h2.2.1,
              fun r3 hr3 => absurd hr3 (by simp)⟩
          | ok segs =>
            have hds : ringsLoop world d outdir rb meta (rt :: rest) st =
                (Except.ok (seg ++ segs), stB) := by
              simp [ringsLoop, hstep, hrec]
            rw [hds]
            exact ⟨cacheMono_trans h1.1 h2.1, h2.2.1,
              fun _ _ => h2.2.2 segs rfl⟩

/-- C7 (amended): within one generation run the inventory fetch is memoized
per host — a cache hit performs no remote execution and reuses the cached
output verbatim, and from any well-formed starting state (in particular the
empty initial state) the fetch log after a run is still duplicate-free: at
most one remote inventory fetch per distinct host ever happens.  But the
cache persists: every cache entry present before a run is still present
after it (the module-global dict is never cleared), so later runs in the
same process reuse earlier runs' fetches instead of fetching again. -/
theorem C7_per_host_fetch_memoized (world : Lshw) :
    (∀ (ip bd : String) (st : RunState) (out : String),
      assocGet st.cache ip = some out →
      _fab_get_disk_size_serial world ip bd st =
        (_parse_lshw_output out bd, st)) ∧
    (∀ (d : SwiftRingsDefinition) (outdir : String) (rb : Bool)
      (meta : Option String) (st : RunState), CacheInv st →
      cacheMono st (generate_commands world d outdir rb meta st).2 ∧
      ((generate_commands world d outdir rb meta st).2).fetchLog.Nodup) := by
  constructor
  · intro ip bd st out hc
    simp [_fab_get_disk_size_serial, hc]
  · intro d outdir rb meta st hInv
    have hp := ringsLoop_stepPost world d outdir rb meta RING_TYPES st hInv
    exact ⟨hp.1, hp.2.1⟩

/-- C7 witness: a cache hit on the preloaded state returns the parsed cached
inventory with the state untouched, and the sample run from the empty state
grows the cache monotonically with a duplicate-free fetch log. -/
theorem C7_per_host_fetch_memoized_witness :
    _fab_get_disk_size_serial worldSample "10.0.0.1" "/dev/sdb" st1 =
      (_parse_lshw_output sampleLshw "/dev/sdb", st1) ∧
    (cacheMono st0
      (generate_commands worldSample dSample "/etc/swift" true none st0).2 ∧
     ((generate_commands worldSample dSample "/etc/swift" true none
        st0).2).fetchLog.Nodup) :=
  ⟨(C7_per_host_fetch_memoized worldSample).1 "10.0.0.1" "/dev/sdb" st1
      sampleLshw (by decide),
   (C7_per_host_fetch_memoized worldSample).2 dSample "/etc/swift" true none
      st0 ⟨List.nodup_nil, fun ip hip => absurd hip (List.not_mem_nil ip)⟩⟩

theorem assocSet_assocSet {α : Type} :
    ∀ (l : List (String × α)) (k : String) (v1 v2 : α),
      assocSet (assocSet l k v1) k v2 = assocSet l k v2 := by
  intro l
  induction l with
  | nil => intro k v1 v2; simp [assocSet]
  | cons p rest ih =>
    intro k v1 v2
    by_cases hpk : p.1 = k
    · simp [assocSet, hpk]
    · simp [assocSet, hpk, ih]

/-- C8 (amended): when the output directory already exists and command
generation succeeds, script emission writes the file at `outdir/name`
(returning that joined path), whose content is the shebang line, then an
empty line, then one command per line; it leaves the directory set untouched
(it never creates a missing directory — that case raises `IOError`), and the
file's mode is its previous mode (644 for a fresh file) with only the
owner-execute bit `S_IEXEC` added. -/
theorem C8_script_emission (world : Lshw) (d : SwiftRingsDefinition)
    (fs : FileSys) (outdir name : String) (rb : Bool) (meta : Option String)
    (st st' : RunState) (cmds : List String)
    (hdir : fs.dirs.contains outdir = true)
    (hcmds : generate_commands world d outdir rb meta st =
      (Except.ok cmds, st')) :
    ∃ fs' : FileSys,
      generate_script world d fs outdir name rb meta st =
        (Except.ok (outdir ++ "/" ++ name), fs', st') ∧
      fs'.dirs = fs.dirs ∧
      fs'.files = assocSet fs.files (outdir ++ "/" ++ name)
        ("#!/bin/bash\n\n" ++ writeLines cmds,
         Nat.lor
           (match assocGet fs.files (outdir ++ "/" ++ name) with
            | some pr => pr.2
            | none => 420) S_IEXEC) := by
  have hm : ("#!/bin/bash\n" ++ "\n" : String) = "#!/bin/bash\n\n" := by decide
  simp only [generate_script, hcmds, hdir, if_true]
  refine ⟨_, rfl, rfl, ?_⟩
  rw [assocSet_assocSet]
  simp only [writeLines]
  rw [hm]

/-- C8 witness: emitting the no-disk sample script into the existing
directory `/etc/swift` writes `ring_builder.sh` with the shebang, a blank
line and the six commands, mode 484 (744 octal), and returns the joined
path. -/
theorem C8_script_emission_witness :
    ∃ fs' : FileSys,
      generate_script worldSample dNoDisks fsDir "/etc/swift"
          "ring_builder.sh" true none st0 =
        (Except.ok ("/etc/swift" ++ "/" ++ "ring_builder.sh"), fs', st0) ∧
      fs'.dirs = fsDir.dirs ∧
      fs'.files = assocSet fsDir.files ("/etc/swift" ++ "/" ++ "ring_builder.sh")
        ("#!/bin/bash\n\n" ++ writeLines
          [ "swift-ring-builder /etc/swift/account.builder create 10 3 1",
            "swift-ring-builder /etc/swift/account.builder rebalance",
            "swift-ring-builder /etc/swift/container.builder create 10 3 1",
            "swift-ring-builder /etc/swift/container.builder rebalance",
            "swift-ring-builder /etc/swift/object.builder create 10 3 1",
            "swift-ring-builder /etc/swift/object.builder rebalance" ],
         Nat.lor
           (match assocGet fsDir.files ("/etc/swift" ++ "/" ++ "ring_builder.sh") with
            | some pr => pr.2
            | none => 420) S_IEXEC) :=
  C8_script_emission worldSample dNoDisks fsDir "/etc/swift" "ring_builder.sh"
    true none st0 st0
    [ "swift-ring-builder /etc/swift/account.builder create 10 3 1",
      "swift-ring-builder /etc/swift/account.builder rebalance",
      "swift-ring-builder /etc/swift/container.builder create 10 3 1",
      "swift-ring-builder /etc/swift/container.builder rebalance",
      "swift-ring-builder /etc/swift/object.builder create 10 3 1",
      "swift-ring-builder /etc/swift/object.builder rebalance" ]
    (by decide) (by decide)

/-- C2: evaluation of the device-path derivation at the spec's own examples.
The greedy `(.*)` in `re.match('(.*)\d+$', disk)` strips only the final
digit, so disk `sdb1` derives `/dev/sdb` as the spec says, but disk `sda10`
derives `/dev/sda1`, not `/dev/sda`: the entire trailing digit run is not
stripped. -/
theorem C2_derivation_eval :
    matchTrailingDigits "sdb1" = some "sdb" ∧
    matchTrailingDigits "sda10" = some "sda1" ∧
    (matchTrailingDigits "sda10").map (fun base => "/dev/" ++ base) =
      some "/dev/sda1" := by
  decide

/-- C5: counterexample. With an inventory whose only record has logical name
`/dev/sdb`, resolving `/dev/sdz` does not fail: `_parse_lshw_output` falls
off its loop and returns `None` (here `Except.ok none`), not a
`DiskNotFound` error. -/
theorem C5_counterexample :
    _parse_lshw_output sampleLshw "/dev/sdz" = Except.ok none := by
  decide

/-- C10: counterexample to the trailing-digit totality claim in both
directions, via Python newline semantics of `.` and `$`: the name `a\n1`
ends in a digit yet the match fails (`.` cannot cross the newline), while
`ab1\n` does not end in a digit yet the match succeeds (`$` also matches
before a single trailing newline), deriving base `ab`. -/
theorem C10_counterexample :
    matchTrailingDigits "a\n1" = none ∧
    matchTrailingDigits "ab1\n" = some "ab" := by
  decide

/-- C4: counterexample. Identifier discovery is still performed when a
metadata override is supplied: with an inventory record that matches the
derived block device but has no serial field, generation aborts with the
`KeyError` raised by `serial = d['serial']` even though the override `OVR`
would have replaced the serial anyway. -/
theorem C4_counterexample :
    (generate_commands worldNoSerial dSample "/etc/swift" true (some "OVR")
      st0).1 = Except.error "KeyError: serial" := by
  decide

/-- C7: counterexample to the cache-lifetime claim. A first generation run
from the empty state fetches host `10.0.0.1` once and leaves its inventory
in the cache; a second run started from that final state performs no remote
fetch at all (its state, fetch log included, is unchanged): the module-level
cache persists across generation runs instead of living for exactly one
run. -/
theorem C7_counterexample :
    (generate_commands worldSample dSample "/etc/swift" true none st0).2 = st1 ∧
    st1.cache ≠ [] ∧
    (generate_commands worldSample dSample "/etc/swift" true none st1).2 = st1 := by
  refine ⟨by decide, by decide, by decide⟩

/-- C8: counterexample. Script emission does not create a missing output
directory (the open raises `IOError` and no file appears); and when the
directory exists, the written file starts with the shebang entry followed by
an empty line (the `"#!/bin/bash\n"` list element gets another newline
appended by the write loop), and its mode gains only the owner-execute bit
(644 becomes 744, i.e. 420 becomes 484), not all execute bits. -/
theorem C8_counterexample :
    generate_script worldSample dNoDisks fs0 "/etc/swift" "ring_builder.sh"
        true none st0 =
      (Except.error "IOError: No such file or directory", fs0, st0) ∧
    generate_script worldSample dNoDisks fsDir "/etc/swift" "ring_builder.sh"
        true none st0 =
      (Except.ok "/etc/swift/ring_builder.sh",
       { dirs := ["/etc/swift"],
         files := [("/etc/swift/ring_builder.sh",
           ("#!/bin/bash\n\nswift-ring-builder /etc/swift/account.builder create 10 3 1\nswift-ring-builder /etc/swift/account.builder rebalance\nswift-ring-builder /etc/swift/container.builder create 10 3 1\nswift-ring-builder /etc/swift/container.builder rebalance\nswift-ring-builder /etc/swift/object.builder create 10 3 1\nswift-ring-builder /etc/swift/object.builder rebalance\n",
            484))] },
       st0) := by
  refine ⟨by decide, by decide⟩

end Swifttool
